import Mathlib

/-!
Shallow embedding of src/src/freedv_mixed_tx.c (mixed voice/data FreeDV
transmit driver) and proofs about it.

The pure logic of the program — the eth_ar callsign-to-MAC address encoder,
the packet generator callback, the energy detector, the voice/data frame
decision, and the main read/encode/write loop — is translated into Lean
definitions below.  Machine integers are modelled as Nat/Int with explicit
truncation (% 256 for the uint8_t stores); C float arithmetic is modelled
exactly over ℚ; fallible code returns Except or an explicit status code.
External library calls (codec2, the freedv modem) appear as function
parameters, except where a definition is explicitly marked as modelled from
the spec.
-/

set_option maxRecDepth 10000

/-- Lookup table for valid callsign characters (alnum2code, lines 48-51 of
freedv_mixed_tx.c).  37 entries; the last entry is the C char 0 used as the
pad symbol. -/
def alnum2code : List Char :=
  ['0', '1', '2', '3', '4', '5', '6', '7', '8', '9',
   'A', 'B', 'C', 'D', 'E', 'F', 'G', 'H', 'I', 'J',
   'K', 'L', 'M', 'N', 'O', 'P', 'Q', 'R', 'S', 'T',
   'U', 'V', 'W', 'X', 'Y', 'Z', Char.ofNat 0]

/-- ASCII toupper, as applied by line 67 of the source. -/
def c_toupper (c : Char) : Char :=
  if 'a' ≤ c ∧ c ≤ 'z' then Char.ofNat (c.toNat - 32) else c

/-- Character scanned at position i of the callsign (lines 64-68): positions
at or beyond the callsign length read as the C char 0, others are read from
the string and uppercased. -/
def callsign_char (callsign : List Char) (i : Nat) : Char :=
  if i ≥ callsign.length then Char.ofNat 0
  else c_toupper (callsign.getD i (Char.ofNat 0))

/-- Inner lookup loop (lines 70-74): index of the first matching table entry;
37 (= sizeof alnum2code) when the character is not in the table. -/
def code_lookup (c : Char) : Nat :=
  alnum2code.findIdx (fun x => x == c)

/-- Base-37 digit contributed by callsign position i. -/
def call_digit (callsign : List Char) (i : Nat) : Nat :=
  code_lookup (callsign_char callsign i)

/-- Accumulation loop of eth_ar_call2mac (lines 61-79): starting from
accumulator add, process positions i-1 down to 0 with add = add * 37 + digit,
failing (like the return -1 at line 75) as soon as a scanned character is not
in the table. -/
def call_accum (callsign : List Char) (add : Nat) : Nat → Option Nat
  | 0 => some add
  | i + 1 =>
    let j := call_digit callsign i
    if j = 37 then none
    else call_accum callsign (add * 37 + j) i

/-- Error taxonomy of the address encoder.  The C function returns -1 from
two distinct sites: line 59 (station id out of range) and line 75 (character
not in the alphabet); the spec names these InvalidStationId and
InvalidCharacter. -/
inductive EthArError where
  | invalidStationId
  | invalidCharacter
deriving DecidableEq

/-- Encoder eth_ar_call2mac (lines 54-89): validate the ssid, accumulate the
base-37 integer over positions 7..0, then pack the six output bytes.  Each
byte expression is the C expression; the % 256 models the store into a
uint8_t element of mac[6]. -/
def eth_ar_call2mac (callsign : List Char) (ssid : Int) (multicast : Bool) :
    Except EthArError (List Nat) :=
  if ssid > 15 ∨ ssid < 0 then .error .invalidStationId
  else
    match call_accum callsign 0 8 with
    | none => .error .invalidCharacter
    | some add =>
      .ok [(((add >>> (40 - 6)) &&& 0xc0) ||| (ssid.toNat <<< 2) ||| 0x02 |||
              (if multicast then 1 else 0)) % 256,
           ((add >>> 32) &&& 0xff) % 256,
           ((add >>> 24) &&& 0xff) % 256,
           ((add >>> 16) &&& 0xff) % 256,
           ((add >>> 8) &&& 0xff) % 256,
           (add &&& 0xff) % 256]

/-- Encoder with the caller-supplied output buffer made explicit, matching
the C signature int eth_ar_call2mac(uint8_t mac[6], ...).  The first
component is the returned status (0 or -1); the second is the final contents
of the mac buffer, whose initial contents mac0 are only overwritten by the
stores at lines 81-86, which the control flow reaches only after the ssid
check and all eight character lookups have succeeded. -/
def eth_ar_call2mac_buf (mac0 : List Nat) (callsign : List Char) (ssid : Int)
    (multicast : Bool) : Int × List Nat :=
  if ssid > 15 ∨ ssid < 0 then (-1, mac0)
  else
    match call_accum callsign 0 8 with
    | none => (-1, mac0)
    | some add =>
      (0, [(((add >>> (40 - 6)) &&& 0xc0) ||| (ssid.toNat <<< 2) ||| 0x02 |||
              (if multicast then 1 else 0)) % 256,
           ((add >>> 32) &&& 0xff) % 256,
           ((add >>> 24) &&& 0xff) % 256,
           ((add >>> 16) &&& 0xff) % 256,
           ((add >>> 8) &&& 0xff) % 256,
           (add &&& 0xff) % 256])

/-- Character class of the spec sentence: a character of [0-9A-Za-z]
(valid identifier character up to case folding). -/
def identifier_char_ok (c : Char) : Bool :=
  decide (('0' ≤ c ∧ c ≤ '9') ∨ ('A' ≤ c ∧ c ≤ 'Z') ∨ ('a' ≤ c ∧ c ≤ 'z'))

/-- Packet generator callback my_datatx (lines 118-175).  The first argument
is the station MAC held in the callback state; data_type is the static
generation counter.  Returns the produced packet bytes (with *size equal to
the list length) and the new value of the counter, which is incremented by
exactly one on every call, on every branch (line 174). -/
def my_datatx (mac : List Nat) (data_type : Nat) : List Nat × Nat :=
  let packet : List Nat :=
    if data_type % 4 = 1 then
      List.replicate 6 0xff ++ mac ++ [0x01, 0x01] ++ List.range 64
    else if data_type % 4 = 2 then
      List.replicate 6 0xff ++ mac ++ [0x73, 0x70] ++
        [0x07, 0x3d, 0xd0, 0x37, 0xd0 ||| 0x08 ||| 0x01, 0x3e, 0x70, 0x85]
    else []
  (packet, data_type + 1)

/-- Energy detector samples_get_energy (lines 181-191): mean over the block
of sample * sample / 8192, computed here exactly over ℚ (the C code uses
float). -/
def samples_get_energy (samples : List Int) : ℚ :=
  ((samples.map (fun s => ((s * s : Int) : ℚ) / 8192)).sum) / samples.length

/-- Frame decision of the spec: VOICE or DATA for each audio block. -/
inductive FrameDecision where
  | VOICE
  | DATA
deriving DecidableEq

/-- Frame decision taken by the integrated branch of the main loop
(lines 306-315): DATA when energy < data_threshold, VOICE otherwise. -/
def decide_frame_integrated (energy data_threshold : ℚ) : FrameDecision :=
  if energy < data_threshold then .DATA else .VOICE

/-- Frame decision taken by the split-codec (--codectx) branch of the main
loop (lines 341-351): DATA when energy < data_threshold, VOICE otherwise. -/
def decide_frame_codectx (energy data_threshold : ℚ) : FrameDecision :=
  if energy < data_threshold then .DATA else .VOICE

/-- Modelled from the spec: the mode constants FREEDV_MODE_2400A, _2400B and
_800XA come from freedv_api.h, which is not under src/; only their being
distinct from each other and from -1 matters to the driver logic. -/
def FREEDV_MODE_2400A : Int := 3

/-- Modelled from the spec: see FREEDV_MODE_2400A. -/
def FREEDV_MODE_2400B : Int := 4

/-- Modelled from the spec: see FREEDV_MODE_2400A. -/
def FREEDV_MODE_800XA : Int := 5

/-- Mode-argument parsing in main (lines 220-223): mode starts at -1 and is
set by whichever of the three string comparisons matches. -/
def main_parse_mode (arg : String) : Int :=
  let mode : Int := -1
  let mode := if arg = "2400A" then FREEDV_MODE_2400A else mode
  let mode := if arg = "2400B" then FREEDV_MODE_2400B else mode
  let mode := if arg = "800XA" then FREEDV_MODE_800XA else mode
  mode

/-- Mode check in main (lines 224-227): when the parsed mode is still -1 the
program prints "Error in mode" to stderr and calls exit(0).  Returns
some exitStatus when the program exits at this point, none when it
continues. -/
def main_mode_exit_status (arg : String) : Option Nat :=
  if main_parse_mode arg = -1 then some 0 else none

/-- Address-derivation step of main (lines 280-283).  mac0 is the (arbitrary,
uninitialized) prior contents of my_cb_state.mac.  The int returned by
eth_ar_call2mac is discarded by the caller; the Bool records whether
execution continues into freedv_set_data_header and the main loop, which it
does unconditionally. -/
def main_derive_address (mac0 : List Nat) (callsign : List Char) (ssid : Int)
    (multicast : Bool) : List Nat × Bool :=
  let r := eth_ar_call2mac_buf mac0 callsign ssid multicast
  (r.2, true)

/-- Main processing loop (lines 301-360): while a full block of
n_speech_samples samples can be read from the remaining input, produce one
modem block from it (txfun stands for the per-block processing, whose output
buffer is written out by the fwrite at line 355) and continue on the rest of
the input.  A short or empty read ends the loop.  The 0 < n_speech_samples
conjunct only serves termination of the model; every freedv mode has a
positive block size. -/
def main_loop (txfun : List Int → List Int) (n_speech_samples : Nat)
    (fin_samples : List Int) : List (List Int) :=
  if _h : n_speech_samples ≤ fin_samples.length ∧ 0 < n_speech_samples then
    txfun (fin_samples.take n_speech_samples) ::
      main_loop txfun n_speech_samples (fin_samples.drop n_speech_samples)
  else []
termination_by fin_samples.length
decreasing_by simp only [List.length_drop]; omega

/-- Encoding loop of the split-codec branch (lines 334-340): encode cf
successive sub-frames of samples_per_frame speech samples each with
codec2_encode, concatenating the encoded bytes (the enc_frame pointer
advances by bytes_per_codec_frame, the speech_frame pointer by
samples_per_frame). -/
def encode_frames (codec2_encode : List Int → List Nat)
    (samples_per_frame : Nat) : Nat → List Int → List Nat
  | 0, _ => []
  | i + 1, speech =>
    codec2_encode (speech.take samples_per_frame) ++
      encode_frames codec2_encode samples_per_frame i
        (speech.drop samples_per_frame)

/-- Energy accumulation of the same loop (line 337): sum of
codec2_get_energy over the encoded sub-frames. -/
def frames_energy (codec2_encode : List Int → List Nat)
    (codec2_get_energy : List Nat → ℚ) (samples_per_frame : Nat) :
    Nat → List Int → ℚ
  | 0, _ => 0
  | i + 1, speech =>
    codec2_get_energy (codec2_encode (speech.take samples_per_frame)) +
      frames_energy codec2_encode codec2_get_energy samples_per_frame i
        (speech.drop samples_per_frame)

/-- Per-block output of the split-codec branch (lines 316-353): encode the
sub-frames, average the codec energies over cf sub-frames, then either emit
the data-frame modem block (freedv_datatx, abstracted as datatx_out) or pack
the encoded frames into a raw modem frame and modulate them
(freedv_rawdata_from_codec_frames as conv, freedv_rawdatatx as modtx). -/
def codectx_block_out (codec2_encode : List Int → List Nat)
    (conv : List Nat → List Nat) (modtx : List Nat → List Int)
    (codec2_get_energy : List Nat → ℚ) (samples_per_frame cf : Nat)
    (data_threshold : ℚ) (datatx_out : List Int) (speech : List Int) :
    List Int :=
  let encoded := encode_frames codec2_encode samples_per_frame cf speech
  let energy :=
    frames_energy codec2_encode codec2_get_energy samples_per_frame cf speech
      / cf
  if energy < data_threshold then datatx_out
  else modtx (conv encoded)

/-- Modelled from the spec: freedv_tx, the integrated voice path, is library
code not under src/.  Per the spec (sections 6 and 8) it encodes each codec
sub-frame of the speech block, packs the encoded frames into one raw modem
frame, and modulates it — the same codec+modem conversion as the split path,
driven with the same inputs. -/
def freedv_tx_model (codec2_encode : List Int → List Nat)
    (conv : List Nat → List Nat) (modtx : List Nat → List Int)
    (samples_per_frame cf : Nat) (speech : List Int) : List Int :=
  modtx (conv (((List.range cf).map
    (fun i => codec2_encode ((speech.drop (i * samples_per_frame)).take
      samples_per_frame))).flatten))

/-- Per-block output of the integrated branch (lines 303-315): score the raw
samples, then either emit the data-frame modem block or let the library
transmit the voice frame (freedv_tx, modelled from the spec above). -/
def integrated_block_out (codec2_encode : List Int → List Nat)
    (conv : List Nat → List Nat) (modtx : List Nat → List Int)
    (samples_per_frame cf : Nat) (data_threshold : ℚ)
    (datatx_out : List Int) (speech : List Int) : List Int :=
  if samples_get_energy speech < data_threshold then datatx_out
  else freedv_tx_model codec2_encode conv modtx samples_per_frame cf speech

/-! Helper lemmas about the address encoder. -/

/-- Helper: every digit produced by the lookup loop is at most 37. -/
theorem call_digit_le_37 (cs : List Char) (i : Nat) : call_digit cs i ≤ 37 := by
  have h := @List.findIdx_le_length Char
    (fun x => x == callsign_char cs i) alnum2code
  simpa [call_digit, code_lookup, alnum2code] using h

/-- Helper: a successful accumulation starting from add stays below
(add + 1) * 37 ^ n after n steps. -/
theorem call_accum_lt (cs : List Char) :
    ∀ n add r, call_accum cs add n = some r → r < (add + 1) * 37 ^ n := by
  intro n
  induction n with
  | zero =>
    intro add r h
    simp only [call_accum, Option.some.injEq] at h
    subst h
    simp
  | succ n ih =>
    intro add r h
    simp only [call_accum] at h
    by_cases hj : call_digit cs n = 37
    · simp [hj] at h
    · rw [if_neg hj] at h
      have hr := ih (add * 37 + call_digit cs n) r h
      have hd : call_digit cs n ≤ 36 := by
        have := call_digit_le_37 cs n
        omega
      calc r < (add * 37 + call_digit cs n + 1) * 37 ^ n := hr
        _ ≤ ((add + 1) * 37) * 37 ^ n := by
            have : add * 37 + call_digit cs n + 1 ≤ (add + 1) * 37 := by nlinarith
            exact Nat.mul_le_mul_right _ this
        _ = (add + 1) * 37 ^ (n + 1) := by ring

/-- Helper: when every scanned digit is valid, the accumulation computes the
base-37 weighted sum, with the digit of position p carrying weight 37 ^ p. -/
theorem call_accum_eq_sum (cs : List Char) :
    ∀ n add, (∀ p, p < n → call_digit cs p ≠ 37) →
      call_accum cs add n =
        some (add * 37 ^ n + ∑ p ∈ Finset.range n, call_digit cs p * 37 ^ p) := by
  intro n
  induction n with
  | zero =>
    intro add _
    simp [call_accum]
  | succ n ih =>
    intro add h
    have hj : call_digit cs n ≠ 37 := h n (by omega)
    simp only [call_accum, if_neg hj]
    rw [ih (add * 37 + call_digit cs n) (fun p hp => h p (by omega))]
    congr 1
    rw [Finset.sum_range_succ]
    ring

/-- Helper: masking an 8-bit value with 0xc0 keeps exactly its top two
bits. -/
theorem and_192_div (x : Nat) (hx : x < 256) : x &&& 192 = x / 64 * 64 := by
  have h : ∀ y, y < 256 → y &&& 192 = y / 64 * 64 := by decide
  exact h x hx

/-- Helper: the bitwise or of the four disjoint fields of byte 0 is their
sum. -/
theorem or_fields (t s m : Nat) (ht : t < 4) (hs : s < 16) (hm : m < 2) :
    (t * 64) ||| (s <<< 2) ||| 2 ||| m = t * 64 + s * 4 + 2 + m := by
  have h : ∀ a, a < 4 → ∀ b, b < 16 → ∀ c, c < 2 →
      (a * 64) ||| (b <<< 2) ||| 2 ||| c = a * 64 + b * 4 + 2 + c := by decide
  exact h t ht s hs m hm

/-- Helper: masking with 0xff is reduction mod 256. -/
theorem and_255_mod (x : Nat) : x &&& 255 = x % 256 := by
  have h := Nat.and_pow_two_sub_one_eq_mod x 8
  norm_num at h
  exact h

/-- Helper: shift then mask extracts one byte. -/
theorem shift_and_255 (x k : Nat) : (x >>> k) &&& 255 = x / 2 ^ k % 256 := by
  rw [Nat.shiftRight_eq_div_pow, and_255_mod]

/-- Helper: byte 0 of the packed address, in arithmetic form: the two bits
41-40 of the accumulated value land in the top two bits. -/
theorem mac_byte0_eq (add s m : Nat) (hadd : add < 2 ^ 42) (hs : s < 16)
    (hm : m < 2) :
    ((add >>> (40 - 6)) &&& 0xc0) ||| (s <<< 2) ||| 2 ||| m =
      add / 2 ^ 40 * 64 + s * 4 + 2 + m := by
  have e34 : (2 : Nat) ^ 34 = 17179869184 := by norm_num
  have e40 : (2 : Nat) ^ 40 = 1099511627776 := by norm_num
  have e42 : (2 : Nat) ^ 42 = 4398046511104 := by norm_num
  have h34 : add >>> (40 - 6) = add / 17179869184 := by
    rw [show 40 - 6 = 34 from rfl, Nat.shiftRight_eq_div_pow, e34]
  have hlt : add / 17179869184 < 256 := by
    rw [e42] at hadd
    omega
  have hdiv : add / 17179869184 / 64 = add / 1099511627776 := by
    rw [Nat.div_div_eq_div_mul]
  have ht : add / 1099511627776 < 4 := by
    rw [e42] at hadd
    omega
  rw [h34]
  rw [show (0xc0 : Nat) = 192 from rfl, and_192_div _ hlt, hdiv]
  rw [e40]
  exact or_fields _ s m ht hs hm

/-- C1 counterexample: for callsign ZZZZZZZZ the accumulated base-37 integer
is 3414910580200, which exceeds 2 ^ 40.  The top two bits of byte 0 of the
produced address are 194 / 64 = 3 — they hold bits 41-40 of the accumulated
integer — while the two most-significant bits of the 40-bit value
(bits 39-38 of the integer reduced mod 2 ^ 40) are 0, so byte 0 does not
hold the two most-significant bits of the 40-bit value as claimed. -/
theorem C1_cex_not_top_bits_of_40 :
    call_accum "ZZZZZZZZ".toList 0 8 = some 3414910580200 ∧
    eth_ar_call2mac "ZZZZZZZZ".toList 0 false =
      .ok [194, 27, 24, 136, 53, 232] ∧
    194 / 64 = 3 ∧ 3414910580200 % 2 ^ 40 / 2 ^ 38 = 0 ∧ (3 : Nat) ≠ 0 :=
  ⟨rfl, rfl, by norm_num, by norm_num, by norm_num⟩

/-- C1 (amended): for every callsign whose 8-position scan succeeds with
accumulated base-37 integer add — a value that can occupy up to 42 bits, not
40 — every station id in [0,15] and every multicast flag, the address is
packed so that byte 0 holds bits 41-40 of add in its top two bits, the
station id in bits 5-2, the always-set locally-administered bit 0x02, and
the multicast flag in the low bit, while bytes 1-5 hold the low 40 bits of
add most-significant byte first; in particular for identifier NOCALL with
station id 0, flipping multicast from false to true changes only the low
bit of byte 0 and no other bit of the address. -/
theorem C1_addr_bit_layout (cs : List Char) (ssid : Int) (mc : Bool)
    (add : Nat) (hs0 : 0 ≤ ssid) (hs15 : ssid ≤ 15)
    (hacc : call_accum cs 0 8 = some add) :
    add < 2 ^ 42 ∧
    eth_ar_call2mac cs ssid mc =
      .ok [add / 2 ^ 40 * 64 + ssid.toNat * 4 + 2 + (if mc then 1 else 0),
           add / 2 ^ 32 % 256, add / 2 ^ 24 % 256, add / 2 ^ 16 % 256,
           add / 2 ^ 8 % 256, add % 256] ∧
    eth_ar_call2mac "NOCALL".toList 0 false =
      .ok [0xc2, 49, 144, 85, 239, 179] ∧
    eth_ar_call2mac "NOCALL".toList 0 true =
      .ok [0xc3, 49, 144, 85, 239, 179] := by
  have hbound : add < 2 ^ 42 := by
    have h := call_accum_lt cs 8 0 add hacc
    norm_num at h
    omega
  refine ⟨hbound, ?_, rfl, rfl⟩
  have hcond : ¬(ssid > 15 ∨ ssid < 0) := by omega
  have hs : ssid.toNat < 16 := by omega
  have hm : (if mc then 1 else 0) < 2 := by
    cases mc <;> norm_num
  rw [eth_ar_call2mac, if_neg hcond, hacc]
  have hb0 := mac_byte0_eq add ssid.toNat (if mc then 1 else 0) hbound hs hm
  have hb0lt : add / 2 ^ 40 * 64 + ssid.toNat * 4 + 2 + (if mc then 1 else 0)
      < 256 := by
    have e42 : (2 : Nat) ^ 42 = 4398046511104 := by norm_num
    have e40 : (2 : Nat) ^ 40 = 1099511627776 := by norm_num
    rw [e40]
    rw [e42] at hbound
    have : add / 1099511627776 < 4 := by omega
    omega
  simp only [hb0, shift_and_255, and_255_mod, Nat.mod_eq_of_lt hb0lt]
  simp only [Nat.shiftRight_eq_div_pow]
  norm_num

/-- C1 witness: the amended layout theorem instantiated at callsign NOCALL,
station id 0, multicast false, accumulated value 3511409831859. -/
theorem C1_addr_bit_layout_witness :
    eth_ar_call2mac "NOCALL".toList 0 false =
      .ok [0xc2, 49, 144, 85, 239, 179] :=
  (C1_addr_bit_layout "NOCALL".toList 0 false 3511409831859 (by norm_num)
    (by norm_num) rfl).2.2.1

/-- C2: for every identifier whose first eight scanned positions are all in
the alphabet, the accumulated integer is the base-37 value in which the
digit of identifier position p has weight 37 ^ p, and every position at or
beyond the identifier length contributes the pad digit 36. -/
theorem C2_base37_weights (cs : List Char)
    (h : ∀ p, p < 8 → call_digit cs p ≠ 37) :
    call_accum cs 0 8 =
      some (∑ p ∈ Finset.range 8, call_digit cs p * 37 ^ p) ∧
    ∀ p, cs.length ≤ p → call_digit cs p = 36 := by
  constructor
  · have hsum := call_accum_eq_sum cs 8 0 h
    simpa using hsum
  · intro p hp
    have hc : callsign_char cs p = Char.ofNat 0 := by
      unfold callsign_char
      rw [if_pos hp]
    unfold call_digit
    rw [hc]
    rfl

/-- C2 witness: the weight theorem instantiated at identifier NOCALL, whose
positions 6 and 7 are pad digits. -/
theorem C2_base37_weights_witness :
    call_accum "NOCALL".toList 0 8 =
      some (∑ p ∈ Finset.range 8, call_digit "NOCALL".toList p * 37 ^ p) ∧
    call_digit "NOCALL".toList 6 = 36 ∧
    call_digit "NOCALL".toList 7 = 36 := by
  have h := C2_base37_weights "NOCALL".toList (by decide)
  exact ⟨h.1, h.2 6 (by decide), h.2 7 (by decide)⟩

/-- C3: starting from a fresh (zero) generation counter, the four
consecutive packet-source calls yield an empty payload, the 78-byte
test-pattern frame (broadcast destination, station MAC source, type
0x01 0x01, ascending bytes 0..63), the 22-byte position report (broadcast
destination, station MAC source, type 0x73 0x70, fixed 8-byte position),
and an empty payload again; the counter increments by exactly one on every
call regardless of branch, and the payload cycle repeats with period 4. -/
theorem C3_packet_cycle (mac : List Nat) (hmac : mac.length = 6) :
    (my_datatx mac 0).1 = [] ∧ (my_datatx mac 0).2 = 1 ∧
    (my_datatx mac 1).1 =
      List.replicate 6 0xff ++ mac ++ [0x01, 0x01] ++ List.range 64 ∧
    ((my_datatx mac 1).1).length = 78 ∧ (my_datatx mac 1).2 = 2 ∧
    (my_datatx mac 2).1 =
      List.replicate 6 0xff ++ mac ++ [0x73, 0x70] ++
        [0x07, 0x3d, 0xd0, 0x37, 0xd9, 0x3e, 0x70, 0x85] ∧
    ((my_datatx mac 2).1).length = 22 ∧ (my_datatx mac 2).2 = 3 ∧
    (my_datatx mac 3).1 = [] ∧ (my_datatx mac 3).2 = 4 ∧
    (∀ n, (my_datatx mac n).2 = n + 1) ∧
    (∀ n, (my_datatx mac (n + 4)).1 = (my_datatx mac n).1) := by
  refine ⟨rfl, rfl, by norm_num [my_datatx], ?_, rfl,
    by norm_num [my_datatx, (by decide : (0xd0 ||| 0x08 ||| 0x01 : Nat) = 0xd9)],
    ?_, rfl, rfl, rfl, fun n => rfl, fun n => ?_⟩
  · simp [my_datatx, hmac]
  · simp [my_datatx, hmac]
  · simp only [my_datatx, Nat.add_mod_right]

/-- C3 witness: the packet cycle instantiated at the MAC derived for NOCALL,
station id 0, multicast false. -/
theorem C3_packet_cycle_witness :
    (my_datatx [0xc2, 49, 144, 85, 239, 179] 0).1 = [] ∧
    ((my_datatx [0xc2, 49, 144, 85, 239, 179] 1).1).length = 78 ∧
    ((my_datatx [0xc2, 49, 144, 85, 239, 179] 2).1).length = 22 ∧
    (my_datatx [0xc2, 49, 144, 85, 239, 179] 3).1 = [] ∧
    (my_datatx [0xc2, 49, 144, 85, 239, 179] 5).2 = 6 ∧
    (my_datatx [0xc2, 49, 144, 85, 239, 179] 5).1 =
      (my_datatx [0xc2, 49, 144, 85, 239, 179] 1).1 := by
  have h := C3_packet_cycle [0xc2, 49, 144, 85, 239, 179] rfl
  exact ⟨h.1, h.2.2.2.1, h.2.2.2.2.2.2.1, h.2.2.2.2.2.2.2.2.1,
    h.2.2.2.2.2.2.2.2.2.2.1 5, h.2.2.2.2.2.2.2.2.2.2.2 1⟩

/-- C4: the per-block frame decision selects DATA exactly when the score is
strictly below the threshold and VOICE otherwise; a score equal to the
threshold yields VOICE, a score of threshold minus any positive epsilon
yields DATA, and the integrated and split-codec branches apply the identical
rule. -/
theorem C4_threshold_boundary (score threshold : ℚ) :
    (decide_frame_integrated score threshold = .DATA ↔ score < threshold) ∧
    decide_frame_integrated score threshold =
      decide_frame_codectx score threshold ∧
    decide_frame_integrated threshold threshold = .VOICE ∧
    ∀ ε : ℚ, 0 < ε →
      decide_frame_integrated (threshold - ε) threshold = .DATA := by
  refine ⟨?_, rfl, ?_, ?_⟩
  · unfold decide_frame_integrated
    split_ifs with h
    · simp [h]
    · simp [h]
  · unfold decide_frame_integrated
    rw [if_neg (lt_irrefl threshold)]
  · intro ε hε
    unfold decide_frame_integrated
    rw [if_pos (by linarith)]

/-- C4 witness: the boundary cases at the reference threshold 15: a score of
exactly 15 gives VOICE, a score of 15 - 1 gives DATA. -/
theorem C4_threshold_boundary_witness :
    decide_frame_integrated 15 15 = .VOICE ∧
    decide_frame_integrated (15 - 1) 15 = .DATA :=
  ⟨(C4_threshold_boundary 0 15).2.2.1,
   (C4_threshold_boundary 0 15).2.2.2 1 (by norm_num)⟩

/-- C6: the code evaluated at the failing input station id 16 — the encoder
does return the invalid-station-id error, but main discards the return value
at line 281 and continues unconditionally into freedv_set_data_header and
the main loop, with the mac buffer still holding its prior (uninitialized)
contents; the claim, which the spec states as the intended contract, says
this failure must be fatal before the main loop. -/
theorem C6_encode_error_ignored :
    eth_ar_call2mac "NOCALL".toList 16 false = .error .invalidStationId ∧
    (main_derive_address [1, 2, 3, 4, 5, 6] "NOCALL".toList 16 false).2
      = true ∧
    (main_derive_address [1, 2, 3, 4, 5, 6] "NOCALL".toList 16 false).1
      = [1, 2, 3, 4, 5, 6] :=
  ⟨rfl, rfl, rfl⟩

/-- C7: the code evaluated at the failing input mode argument 1600 — the
mode stays -1, the program stops at startup, but the exit status it passes
to exit at line 226 is 0, not nonzero as the claim requires; the three
supported modes do not exit at this point. -/
theorem C7_unknown_mode_exit_status :
    main_parse_mode "1600" = -1 ∧
    main_mode_exit_status "1600" = some 0 ∧
    main_mode_exit_status "2400A" = none ∧
    main_mode_exit_status "2400B" = none ∧
    main_mode_exit_status "800XA" = none :=
  ⟨rfl, rfl, rfl, rfl, rfl⟩

/-- Helper: a non-NUL character outside [0-9A-Za-z] is not found by the
lookup loop, which therefore returns 37. -/
theorem code_lookup_invalid (c : Char) (hok : identifier_char_ok c = false)
    (hnz : c ≠ Char.ofNat 0) : code_lookup (c_toupper c) = 37 := by
  have hprop : ¬(('0' ≤ c ∧ c ≤ '9') ∨ ('A' ≤ c ∧ c ≤ 'Z') ∨
      ('a' ≤ c ∧ c ≤ 'z')) := by
    simpa [identifier_char_ok] using hok
  have hCt : c_toupper c = c := by
    unfold c_toupper
    rw [if_neg (fun h => hprop (Or.inr (Or.inr h)))]
  rw [hCt]
  unfold code_lookup
  have hall : ∀ x ∈ alnum2code, (x == c) = false := by
    intro x hx
    rw [beq_eq_false_iff_ne]
    fin_cases hx <;> rintro rfl <;>
      first
        | exact hnz rfl
        | exact hprop (by decide)
  rw [List.findIdx_eq_length.mpr hall]
  rfl

/-- Helper: the accumulation loop fails whenever any scanned position holds
an invalid digit. -/
theorem call_accum_none (cs : List Char) :
    ∀ n add p, p < n → call_digit cs p = 37 → call_accum cs add n = none := by
  intro n
  induction n with
  | zero =>
    intro add p hp _
    exact absurd hp (Nat.not_lt_zero p)
  | succ n ih =>
    intro add p hp hd
    simp only [call_accum]
    by_cases hj : call_digit cs n = 37
    · simp [hj]
    · rw [if_neg hj]
      have hpn : p ≠ n := fun h => hj (h ▸ hd)
      exact ih (add * 37 + call_digit cs n) p (by omega) hd

/-- C5 (amended): the encoder fails with InvalidStationId for every station
id outside [0,15], in particular 16 and -1; and it fails with
InvalidCharacter — never returning an address — for every NUL-free
identifier one of whose first 8 positions holds a character outside
[0-9A-Za-z] after case folding.  (Characters at positions 8 and beyond are
never examined by the scan, so an invalid character there is not
rejected.) -/
theorem C5_rejects (cs : List Char) (ssid : Int) (mc : Bool) (p : Nat)
    (hnul : ∀ c ∈ cs, c ≠ Char.ofNat 0) :
    (ssid > 15 ∨ ssid < 0 →
      eth_ar_call2mac cs ssid mc = .error .invalidStationId) ∧
    eth_ar_call2mac cs 16 mc = .error .invalidStationId ∧
    eth_ar_call2mac cs (-1) mc = .error .invalidStationId ∧
    (0 ≤ ssid → ssid ≤ 15 → p < 8 →
      ∀ hp : p < cs.length, identifier_char_ok (cs.get ⟨p, hp⟩) = false →
        eth_ar_call2mac cs ssid mc = .error .invalidCharacter) := by
  refine ⟨?_, ?_, ?_, ?_⟩
  · intro h
    rw [eth_ar_call2mac, if_pos h]
  · rw [eth_ar_call2mac, if_pos (by norm_num)]
  · rw [eth_ar_call2mac, if_pos (by norm_num)]
  · intro hs0 hs15 hp8 hp hok
    have hgd : cs.getD p (Char.ofNat 0) = cs.get ⟨p, hp⟩ := by
      rw [List.getD_eq_getElem cs _ hp]
      simp [List.get_eq_getElem]
    have hd : call_digit cs p = 37 := by
      unfold call_digit callsign_char
      rw [if_neg (by omega : ¬p ≥ cs.length), hgd]
      exact code_lookup_invalid _ hok (hnul _ (List.get_mem cs p hp))
    have hacc := call_accum_none cs 8 0 p hp8 hd
    rw [eth_ar_call2mac, if_neg (by omega), hacc]

/-- C5 counterexample: the identifier ABCDEFGH- contains the character hyphen,
which is outside [0-9A-Za-z], yet with station id 0 the encoder succeeds and
returns an address, because the invalid character sits at position 8 and the
scan only reads positions 0..7. -/
theorem C5_cex_ninth_position_unchecked :
    ("ABCDEFGH-".toList).any (fun c => !identifier_char_ok c) = true ∧
    eth_ar_call2mac "ABCDEFGH-".toList 0 false =
      .ok [66, 129, 142, 241, 152, 28] :=
  ⟨by decide, rfl⟩

/-- C5 witness: the amended rejection theorem instantiated at the identifier
NO CALL, whose position 2 holds a space, with station id 0. -/
theorem C5_rejects_witness :
    eth_ar_call2mac "NO CALL".toList 0 false = .error .invalidCharacter := by
  have h := (C5_rejects "NO CALL".toList 0 false 2 (by decide)).2.2.2
  exact h (by norm_num) (by norm_num) (by norm_num) (by decide) (by decide)

/-- C8: for an input stream holding exactly k full audio blocks of the
mode's block length followed by a short remainder, the main loop iterates
exactly k times, writing exactly k modem blocks, each of the nominal modem
block length, and then terminates; the short read ends the loop without
error. -/
theorem C8_block_count (txfun : List Int → List Int) (n nout k r : Nat)
    (input : List Int) (hn : 0 < n) (hout : ∀ s, (txfun s).length = nout)
    (hlen : input.length = k * n + r) (hr : r < n) :
    (main_loop txfun n input).length = k ∧
    ∀ b ∈ main_loop txfun n input, b.length = nout := by
  induction k generalizing input with
  | zero =>
    rw [main_loop, dif_neg (by omega : ¬(n ≤ input.length ∧ 0 < n))]
    simp
  | succ k ih =>
    have hmul : (k + 1) * n = k * n + n := by ring
    rw [hmul] at hlen
    have hcond : n ≤ input.length ∧ 0 < n := by omega
    rw [main_loop, dif_pos hcond]
    have hdrop : (input.drop n).length = k * n + r := by
      rw [List.length_drop]
      omega
    obtain ⟨ih1, ih2⟩ := ih (input.drop n) hdrop
    refine ⟨by simp [ih1], ?_⟩
    intro b hb
    rcases List.mem_cons.mp hb with rfl | hb2
    · exact hout _
    · exact ih2 b hb2

/-- C8 witness: the block-count theorem instantiated with block length 2,
modem block length 3, and an input of two full blocks plus one leftover
sample. -/
theorem C8_block_count_witness :
    (main_loop (fun _ => [0, 0, 0]) 2 [1, 2, 3, 4, 5]).length = 2 :=
  (C8_block_count (fun _ => [0, 0, 0]) 2 3 2 1 [1, 2, 3, 4, 5]
    (by norm_num) (fun _ => rfl) rfl (by norm_num)).1

/-- Helper: the split-codec encode loop produces the concatenation of the
codec encodings of the successive sub-frames. -/
theorem encode_frames_eq_flatten (enc : List Int → List Nat) (spf : Nat) :
    ∀ cf speech, encode_frames enc spf cf speech =
      ((List.range cf).map
        (fun i => enc ((speech.drop (i * spf)).take spf))).flatten := by
  intro cf
  induction cf with
  | zero =>
    intro speech
    simp [encode_frames]
  | succ cf ih =>
    intro speech
    rw [List.range_succ_eq_map]
    simp only [List.map_cons, List.flatten_cons, List.map_map]
    rw [encode_frames, ih (speech.drop spf)]
    congr 1
    · rw [Nat.zero_mul, List.drop_zero]
    · congr 1
      apply List.map_congr_left
      intro i _
      simp only [Function.comp]
      rw [List.drop_drop]
      congr 3
      rw [Nat.succ_mul]
      exact Nat.add_comm spf (i * spf)

/-- C9: for every fixed audio block on which neither branch selects the data
frame, the integrated path (freedv_tx, modelled from the spec as codec
encoding followed by raw-frame packing and modulation) and the split-codec
path (the driver encodes every codec sub-frame itself, then packs and
modulates via the raw-frame conversion) produce identical modem output. -/
theorem C9_split_path_equiv (codec2_encode : List Int → List Nat)
    (conv : List Nat → List Nat) (modtx : List Nat → List Int)
    (codec2_get_energy : List Nat → ℚ) (samples_per_frame cf : Nat)
    (data_threshold : ℚ) (datatx_out speech : List Int)
    (h1 : ¬samples_get_energy speech < data_threshold)
    (h2 : ¬frames_energy codec2_encode codec2_get_energy samples_per_frame cf
        speech / cf < data_threshold) :
    integrated_block_out codec2_encode conv modtx samples_per_frame cf
        data_threshold datatx_out speech =
      codectx_block_out codec2_encode conv modtx codec2_get_energy
        samples_per_frame cf data_threshold datatx_out speech := by
  unfold integrated_block_out codectx_block_out freedv_tx_model
  rw [if_neg h1, if_neg h2, encode_frames_eq_flatten]

/-- C9 witness: the equivalence instantiated with a concrete two-sub-frame
block of speech samples [3, 4], threshold 0, and concrete stand-ins for the
codec and modem collaborators. -/
theorem C9_split_path_equiv_witness :
    integrated_block_out (fun _ => [1]) id (fun l => [(l.length : Int)]) 1 2 0
        [] [3, 4] =
      codectx_block_out (fun _ => [1]) id (fun l => [(l.length : Int)])
        (fun _ => 1) 1 2 0 [] [3, 4] :=
  C9_split_path_equiv (fun _ => [1]) id (fun l => [(l.length : Int)])
    (fun _ => 1) 1 2 0 [] [3, 4] (by norm_num [samples_get_energy])
    (by
      have e2 : frames_energy (fun _ => [1]) (fun _ => (1 : ℚ)) 1 2 [3, 4]
          = 1 + (1 + 0) := rfl
      rw [e2]
      norm_num)

/-- C10: whenever the encoder returns the error status -1 (out-of-range
station id, or an invalid character among the eight scanned positions), the
6-byte output buffer still holds exactly its prior contents — all stores
into it happen only after every validation has succeeded — and no address
is returned. -/
theorem C10_error_leaves_buffer (mac0 : List Nat) (cs : List Char)
    (ssid : Int) (mc : Bool)
    (h : (eth_ar_call2mac_buf mac0 cs ssid mc).1 = -1) :
    (eth_ar_call2mac_buf mac0 cs ssid mc).2 = mac0 ∧
    ∀ m, eth_ar_call2mac cs ssid mc ≠ .ok m := by
  by_cases hc : ssid > 15 ∨ ssid < 0
  · refine ⟨by simp [eth_ar_call2mac_buf, hc], ?_⟩
    intro m
    simp [eth_ar_call2mac, hc]
  · rcases hacc : call_accum cs 0 8 with _ | add
    · refine ⟨by simp [eth_ar_call2mac_buf, hc, hacc], ?_⟩
      intro m
      simp [eth_ar_call2mac, hc, hacc]
    · exfalso
      simp [eth_ar_call2mac_buf, hc, hacc] at h

/-- C10 witness: the unmodified-buffer theorem instantiated at station id 16
with a distinctive prior buffer. -/
theorem C10_error_leaves_buffer_witness :
    (eth_ar_call2mac_buf [9, 9, 9, 9, 9, 9] "NOCALL".toList 16 false).2 =
      [9, 9, 9, 9, 9, 9] ∧
    eth_ar_call2mac "NOCALL".toList 16 false ≠ .ok [0, 0, 0, 0, 0, 0] := by
  have h := C10_error_leaves_buffer [9, 9, 9, 9, 9, 9] "NOCALL".toList 16
    false rfl
  exact ⟨h.1, h.2 [0, 0, 0, 0, 0, 0]⟩
